import Mathlib

/-!
# Adaptive Simpson integration (Assign1/Problem1/adaptive_integration.cpp)

Shallow embedding of `func_simpsons_rule` and `func_ASI`.

* The C++ `double` arithmetic is modelled exactly, over an arbitrary linearly ordered
  field `K` (instantiated with `ℚ` for evaluation and with `ℝ` where integrals appear).
* `const function<double(double)>&` is `Option (K → K)`; `none` is the empty callable,
  for which `!func_f` holds.
* `uint32_t& func_call_counter` is threaded through as a `Nat`; `func_call_counter++`
  is `(c + 1) % 2 ^ 32`.
* `func_ASI_arith` is the same code over an arbitrary arithmetic `Arith`; `exactArith`
  gives back `func_ASI` (`func_ASI_arith_exact`), and `doubleArith` is IEEE 754 binary64
  arithmetic on finite values, where `tolerance / 2` can underflow to `0`.
* The recursion of `func_ASI` is not bounded in the source. The embedding takes a `fuel`
  argument that bounds the depth of nested recursive calls; `none` means that the
  recursion is deeper than `fuel`. Validation and the acceptance test need no fuel.
* The operands of the final `+` are evaluated left to right. The C++ standard leaves the
  order open; `func_ASI_right_first_eq` shows that the other order gives the same value
  and the same final counter.
-/

namespace AdaptiveIntegration

variable {K : Type} [LinearOrderedField K]

/-! ## Definitions -/

/-- Simpson estimate over one interval (source lines 22-29). -/
def func_simpsons_rule (func_f : K → K) (begin_limit end_limit : K) : K :=
  let midpoint := (begin_limit + end_limit) / 2
  (end_limit - begin_limit) / 6 *
    (func_f begin_limit + 4 * func_f midpoint + func_f end_limit)

/-- Adaptive Simpson integration (source lines 43-101). The result pairs the returned
value with the final value of the call counter. -/
def func_ASI (fuel : Nat) (func_f : Option (K → K)) (begin_limit end_limit tolerance : K)
    (func_call_counter : Nat) : Option (K × Nat) :=
  if tolerance ≤ 0 then some (-1, func_call_counter)
  else
    match func_f with
    | none => some (-1, func_call_counter)
    | some f =>
      if begin_limit > end_limit then some (-1, func_call_counter)
      else
        let counter1 := (func_call_counter + 1) % 2 ^ 32
        let I1 := func_simpsons_rule f begin_limit end_limit
        let midpoint := (begin_limit + end_limit) / 2
        let I2 := func_simpsons_rule f begin_limit midpoint
          + func_simpsons_rule f midpoint end_limit
        let errest := |I2 - I1|
        if errest < 15 * tolerance then some (I2, counter1)
        else
          match fuel with
          | 0 => none
          | n + 1 =>
            match func_ASI n func_f begin_limit midpoint (tolerance / 2) counter1 with
            | none => none
            | some (left, counter2) =>
              match func_ASI n func_f midpoint end_limit (tolerance / 2) counter2 with
              | none => none
              | some (right, counter3) => some (left + right, counter3)

/-- The two-half estimate `I2` that `func_ASI` computes on `[a, b]`. -/
def I2 (f : K → K) (a b : K) : K :=
  func_simpsons_rule f a ((a + b) / 2) + func_simpsons_rule f ((a + b) / 2) b

/-- The error estimate `errest` that `func_ASI` computes on `[a, b]`. -/
def errest (f : K → K) (a b : K) : K := |I2 f a b - func_simpsons_rule f a b|

/-- Recursion tree of one run of `func_ASI`: every invocation is a node, labelled with
the interval and tolerance it was called with. -/
inductive CallTree (K : Type) where
  | rejected : CallTree K
  | accepted (a b tol : K) : CallTree K
  | split (a b tol : K) (l r : CallTree K) : CallTree K

/-- Number of invocations in the tree, the root included. -/
def CallTree.nodes : CallTree K → Nat
  | .rejected => 1
  | .accepted _ _ _ => 1
  | .split _ _ _ l r => 1 + l.nodes + r.nodes

/-- Value returned by the invocation at the root of the tree. -/
def CallTree.value (f : K → K) : CallTree K → K
  | .rejected => -1
  | .accepted a b _ => I2 f a b
  | .split _ _ _ l r => l.value f + r.value f

/-- Whether some invocation in the tree failed validation. -/
def CallTree.hasRejected : CallTree K → Bool
  | .rejected => true
  | .accepted _ _ _ => false
  | .split _ _ _ l r => l.hasRejected || r.hasRejected

/-- The accepted intervals, left to right, each with the tolerance it was handed. -/
def CallTree.leaves : CallTree K → List (K × K × K)
  | .rejected => []
  | .accepted a b tol => [(a, b, tol)]
  | .split _ _ _ l r => l.leaves ++ r.leaves

/-- Recursion depth of each accepted interval, left to right, the root being at depth 0. -/
def CallTree.leafDepths : CallTree K → List Nat
  | .rejected => []
  | .accepted _ _ _ => [0]
  | .split _ _ _ l r => (l.leafDepths ++ r.leafDepths).map (· + 1)

/-- Instrumented copy of `func_ASI`: same control flow, but it records the recursion
tree instead of the value and the counter. -/
def func_ASI_tree (fuel : Nat) (func_f : Option (K → K)) (begin_limit end_limit tolerance : K) :
    Option (CallTree K) :=
  if tolerance ≤ 0 then some .rejected
  else
    match func_f with
    | none => some .rejected
    | some f =>
      if begin_limit > end_limit then some .rejected
      else
        let I1 := func_simpsons_rule f begin_limit end_limit
        let midpoint := (begin_limit + end_limit) / 2
        let I2 := func_simpsons_rule f begin_limit midpoint
          + func_simpsons_rule f midpoint end_limit
        let errest := |I2 - I1|
        if errest < 15 * tolerance then some (.accepted begin_limit end_limit tolerance)
        else
          match fuel with
          | 0 => none
          | n + 1 =>
            match func_ASI_tree n func_f begin_limit midpoint (tolerance / 2) with
            | none => none
            | some left =>
              match func_ASI_tree n func_f midpoint end_limit (tolerance / 2) with
              | none => none
              | some right => some (.split begin_limit end_limit tolerance left right)

/-- Tolerance handed to an accepted interval. -/
def leafTol (l : K × K × K) : K := l.2.2

/-- Whole-interval Simpson estimate `I1` of an accepted interval. -/
def leafI1 (f : K → K) (l : K × K × K) : K := func_simpsons_rule f l.1 l.2.1

/-- Two-half estimate `I2` of an accepted interval. -/
def leafI2 (f : K → K) (l : K × K × K) : K := I2 f l.1 l.2.1

/-- Local error estimate of an accepted interval. -/
def leafErrest (f : K → K) (l : K × K × K) : K := errest f l.1 l.2.1

/-- Variant of the recursion of `func_ASI` with the validation block removed, as the
specification recommends for the internal recursive calls. -/
def func_ASI_unchecked (fuel : Nat) (f : K → K) (begin_limit end_limit tolerance : K)
    (func_call_counter : Nat) : Option (K × Nat) :=
  let counter1 := (func_call_counter + 1) % 2 ^ 32
  let I1 := func_simpsons_rule f begin_limit end_limit
  let midpoint := (begin_limit + end_limit) / 2
  let I2 := func_simpsons_rule f begin_limit midpoint
    + func_simpsons_rule f midpoint end_limit
  let errest := |I2 - I1|
  if errest < 15 * tolerance then some (I2, counter1)
  else
    match fuel with
    | 0 => none
    | n + 1 =>
      match func_ASI_unchecked n f begin_limit midpoint (tolerance / 2) counter1 with
      | none => none
      | some (left, counter2) =>
        match func_ASI_unchecked n f midpoint end_limit (tolerance / 2) counter2 with
        | none => none
        | some (right, counter3) => some (left + right, counter3)

/-- Variant of `func_ASI` that validates its input once, at the public entry point, and
then runs the unvalidated recursion. -/
def func_ASI_validate_once (fuel : Nat) (func_f : Option (K → K))
    (begin_limit end_limit tolerance : K) (func_call_counter : Nat) : Option (K × Nat) :=
  if tolerance ≤ 0 then some (-1, func_call_counter)
  else
    match func_f with
    | none => some (-1, func_call_counter)
    | some f =>
      if begin_limit > end_limit then some (-1, func_call_counter)
      else func_ASI_unchecked fuel f begin_limit end_limit tolerance func_call_counter

/-- Copy of `func_ASI` in which the right operand of the final `+` is evaluated before
the left one, the other order that a C++ compiler may choose. -/
def func_ASI_right_first (fuel : Nat) (func_f : Option (K → K))
    (begin_limit end_limit tolerance : K) (func_call_counter : Nat) : Option (K × Nat) :=
  if tolerance ≤ 0 then some (-1, func_call_counter)
  else
    match func_f with
    | none => some (-1, func_call_counter)
    | some f =>
      if begin_limit > end_limit then some (-1, func_call_counter)
      else
        let counter1 := (func_call_counter + 1) % 2 ^ 32
        let I1 := func_simpsons_rule f begin_limit end_limit
        let midpoint := (begin_limit + end_limit) / 2
        let I2 := func_simpsons_rule f begin_limit midpoint
          + func_simpsons_rule f midpoint end_limit
        let errest := |I2 - I1|
        if errest < 15 * tolerance then some (I2, counter1)
        else
          match fuel with
          | 0 => none
          | n + 1 =>
            match func_ASI_right_first n func_f midpoint end_limit (tolerance / 2) counter1 with
            | none => none
            | some (right, counter2) =>
              match func_ASI_right_first n func_f begin_limit midpoint (tolerance / 2)
                  counter2 with
              | none => none
              | some (left, counter3) => some (left + right, counter3)

/-- Step integrand with a jump at `1/3`: `0` below `1/3`, `1` from `1/3` on. -/
def step_third (x : K) : K := if x < 1 / 3 then 0 else 1

/-- The sub-interval of `[0, 1]` at recursion depth `d` that contains the jump of
`step_third`, obtained by the midpoint bisection of `func_ASI`. -/
def jumpInterval : Nat → ℚ × ℚ
  | 0 => (0, 1)
  | d + 1 =>
    let ab := jumpInterval d
    let midpoint := (ab.1 + ab.2) / 2
    if 1 / 3 ≤ midpoint then (ab.1, midpoint) else (midpoint, ab.2)

/-- Antiderivative of the cubic with coefficients `c0 .. c3`. -/
def cubicPrimitive (c0 c1 c2 c3 x : K) : K :=
  c0 * x + c1 * x ^ 2 / 2 + c2 * x ^ 3 / 3 + c3 * x ^ 4 / 4

/-! ### The same code over an arbitrary arithmetic, and over IEEE doubles -/

/-- The arithmetic that `func_simpsons_rule` and `func_ASI` use on `double` values:
the four operations, `std::abs`, the comparisons `<=` and `<`, and the integer literals
of the source (`0`, `2`, `4`, `6`, `15`, `-1`). Nothing is assumed about them, so a
statement proved for every `Arith` holds for rounded arithmetic as well as exact. -/
structure Arith (F : Type) where
  add : F → F → F
  sub : F → F → F
  mul : F → F → F
  div : F → F → F
  abs : F → F
  le : F → F → Bool
  lt : F → F → Bool
  lit : Int → F

/-- Source lines 22-29, with every operation taken from `A`, in the order in which C++
parses the expression. -/
def func_simpsons_rule_arith {F : Type} (A : Arith F) (func_f : F → F)
    (begin_limit end_limit : F) : F :=
  let midpoint := A.div (A.add begin_limit end_limit) (A.lit 2)
  A.mul (A.div (A.sub end_limit begin_limit) (A.lit 6))
    (A.add (A.add (func_f begin_limit) (A.mul (A.lit 4) (func_f midpoint)))
      (func_f end_limit))

/-- Source lines 43-101, with every operation taken from `A`; `begin_limit > end_limit`
is `end_limit < begin_limit`. -/
def func_ASI_arith {F : Type} (A : Arith F) (fuel : Nat) (func_f : Option (F → F))
    (begin_limit end_limit tolerance : F) (func_call_counter : Nat) : Option (F × Nat) :=
  if A.le tolerance (A.lit 0) then some (A.lit (-1), func_call_counter)
  else
    match func_f with
    | none => some (A.lit (-1), func_call_counter)
    | some f =>
      if A.lt end_limit begin_limit then some (A.lit (-1), func_call_counter)
      else
        let counter1 := (func_call_counter + 1) % 2 ^ 32
        let I1 := func_simpsons_rule_arith A f begin_limit end_limit
        let midpoint := A.div (A.add begin_limit end_limit) (A.lit 2)
        let I2 := A.add (func_simpsons_rule_arith A f begin_limit midpoint)
          (func_simpsons_rule_arith A f midpoint end_limit)
        let errest := A.abs (A.sub I2 I1)
        if A.lt errest (A.mul (A.lit 15) tolerance) then some (I2, counter1)
        else
          match fuel with
          | 0 => none
          | n + 1 =>
            match func_ASI_arith A n func_f begin_limit midpoint
                (A.div tolerance (A.lit 2)) counter1 with
            | none => none
            | some (left, counter2) =>
              match func_ASI_arith A n func_f midpoint end_limit
                  (A.div tolerance (A.lit 2)) counter2 with
              | none => none
              | some (right, counter3) => some (A.add left right, counter3)

/-- The two-half estimate `I2` of `func_ASI_arith` on `[a, b]`. -/
def I2_arith {F : Type} (A : Arith F) (f : F → F) (a b : F) : F :=
  A.add (func_simpsons_rule_arith A f a (A.div (A.add a b) (A.lit 2)))
    (func_simpsons_rule_arith A f (A.div (A.add a b) (A.lit 2)) b)

/-- The error estimate `errest` of `func_ASI_arith` on `[a, b]`. -/
def errest_arith {F : Type} (A : Arith F) (f : F → F) (a b : F) : F :=
  A.abs (A.sub (I2_arith A f a b) (func_simpsons_rule_arith A f a b))

/-- Exact arithmetic of a linearly ordered field. -/
def exactArith (K : Type) [LinearOrderedField K] : Arith K where
  add x y := x + y
  sub x y := x - y
  mul x y := x * y
  div x y := x / y
  abs x := |x|
  le x y := decide (x ≤ y)
  lt x y := decide (x < y)
  lit k := (k : K)

/-- One step of the binary search for the leading bit: `acc.1` is what is left of the
number and `acc.2` the exponent found so far. -/
def log2Step (k : Nat) (acc : Nat × Nat) : Nat × Nat :=
  if 2 ^ k ≤ acc.1 then (acc.1 / 2 ^ k, acc.2 + k) else acc

/-- Position of the leading bit of `n`, that is, the `e` with `2 ^ e ≤ n < 2 ^ (e + 1)`,
for `0 < n < 2 ^ 4096` (`0` at `n = 0`); see `ilog2_spec`. -/
def ilog2 (n : Nat) : Nat :=
  (log2Step 1 (log2Step 2 (log2Step 4 (log2Step 8 (log2Step 16 (log2Step 32 (log2Step 64
    (log2Step 128 (log2Step 256 (log2Step 512 (log2Step 1024
      (log2Step 2048 (n, 0))))))))))))).2

theorem func_ASI_tol {fuel : Nat} {func_f : Option (K → K)} {a b tol : K} {c : Nat}
    (h : tol ≤ 0) : func_ASI fuel func_f a b tol c = some (-1, c) := by
  unfold func_ASI
  simp [h]

theorem func_ASI_null {fuel : Nat} {a b tol : K} {c : Nat} :
    func_ASI fuel (none : Option (K → K)) a b tol c = some (-1, c) := by
  unfold func_ASI
  split <;> rfl

theorem func_ASI_limits {fuel : Nat} {func_f : Option (K → K)} {a b tol : K} {c : Nat}
    (h : a > b) : func_ASI fuel func_f a b tol c = some (-1, c) := by
  unfold func_ASI
  split
  · rfl
  · cases func_f with
    | none => rfl
    | some f => simp [h]

theorem func_ASI_accept {fuel : Nat} {f : K → K} {a b tol : K} {c : Nat}
    (htol : 0 < tol) (hab : a ≤ b)
    (herr : |I2 f a b - func_simpsons_rule f a b| < 15 * tol) :
    func_ASI fuel (some f) a b tol c = some (I2 f a b, (c + 1) % 2 ^ 32) := by
  unfold func_ASI
  simp only [I2] at herr
  simp [not_le.mpr htol, not_lt.mpr hab, herr, I2]

theorem func_ASI_split {fuel : Nat} {f : K → K} {a b tol : K} {c : Nat}
    (htol : 0 < tol) (hab : a ≤ b)
    (herr : ¬ |I2 f a b - func_simpsons_rule f a b| < 15 * tol) :
    func_ASI (fuel + 1) (some f) a b tol c =
      (func_ASI fuel (some f) a ((a + b) / 2) (tol / 2) ((c + 1) % 2 ^ 32)).bind fun l =>
        (func_ASI fuel (some f) ((a + b) / 2) b (tol / 2) l.2).bind fun r =>
          some (l.1 + r.1, r.2) := by
  rw [func_ASI]
  simp only [I2] at herr
  simp only [not_le.mpr htol, not_lt.mpr hab, herr, if_false, gt_iff_lt]
  cases h1 : func_ASI fuel (some f) a ((a + b) / 2) (tol / 2) ((c + 1) % 2 ^ 32) with
  | none => simp
  | some l =>
    obtain ⟨l1, l2⟩ := l
    cases h2 : func_ASI fuel (some f) ((a + b) / 2) b (tol / 2) l2 with
    | none => simp [h2]
    | some r => simp [h2]

theorem func_ASI_stuck {f : K → K} {a b tol : K} {c : Nat}
    (htol : 0 < tol) (hab : a ≤ b)
    (herr : ¬ |I2 f a b - func_simpsons_rule f a b| < 15 * tol) :
    func_ASI 0 (some f) a b tol c = none := by
  rw [func_ASI]
  simp only [I2] at herr
  simp only [not_le.mpr htol, not_lt.mpr hab, herr, if_false, gt_iff_lt]

theorem counter_step (c n : Nat) : ((c + 1) % 2 ^ 32 + n) % 2 ^ 32 = (c + (1 + n)) % 2 ^ 32 := by
  omega

theorem counter_steps (c m n : Nat) :
    ((c + m) % 2 ^ 32 + n) % 2 ^ 32 = (c + (m + n)) % 2 ^ 32 := by
  omega

theorem func_ASI_tree_accept {fuel : Nat} {f : K → K} {a b tol : K}
    (htol : 0 < tol) (hab : a ≤ b)
    (herr : |I2 f a b - func_simpsons_rule f a b| < 15 * tol) :
    func_ASI_tree fuel (some f) a b tol = some (.accepted a b tol) := by
  unfold func_ASI_tree
  simp only [I2] at herr
  simp [not_le.mpr htol, not_lt.mpr hab, herr]

theorem func_ASI_tree_split {fuel : Nat} {f : K → K} {a b tol : K}
    (htol : 0 < tol) (hab : a ≤ b)
    (herr : ¬ |I2 f a b - func_simpsons_rule f a b| < 15 * tol) :
    func_ASI_tree (fuel + 1) (some f) a b tol =
      (func_ASI_tree fuel (some f) a ((a + b) / 2) (tol / 2)).bind fun l =>
        (func_ASI_tree fuel (some f) ((a + b) / 2) b (tol / 2)).bind fun r =>
          some (.split a b tol l r) := by
  rw [func_ASI_tree]
  simp only [I2] at herr
  simp only [not_le.mpr htol, not_lt.mpr hab, herr, if_false, gt_iff_lt]
  cases h1 : func_ASI_tree fuel (some f) a ((a + b) / 2) (tol / 2) with
  | none => simp
  | some l =>
    cases h2 : func_ASI_tree fuel (some f) ((a + b) / 2) b (tol / 2) with
    | none => simp [h2]
    | some r => simp [h2]

theorem func_ASI_tree_stuck {f : K → K} {a b tol : K}
    (htol : 0 < tol) (hab : a ≤ b)
    (herr : ¬ |I2 f a b - func_simpsons_rule f a b| < 15 * tol) :
    func_ASI_tree 0 (some f) a b tol = none := by
  rw [func_ASI_tree]
  simp only [I2] at herr
  simp only [not_le.mpr htol, not_lt.mpr hab, herr, if_false, gt_iff_lt]

theorem midpoint_ge {a b : K} (hab : a ≤ b) : a ≤ (a + b) / 2 := by
  linarith

theorem midpoint_le {a b : K} (hab : a ≤ b) : (a + b) / 2 ≤ b := by
  linarith

theorem func_ASI_eq_tree (f : K → K) : ∀ (fuel : Nat) (a b tol : K) (c : Nat),
    0 < tol → a ≤ b →
    func_ASI fuel (some f) a b tol c =
      (func_ASI_tree fuel (some f) a b tol).map fun t =>
        (t.value f, (c + t.nodes) % 2 ^ 32) := by
  intro fuel
  induction fuel with
  | zero =>
    intro a b tol c htol hab
    by_cases herr : |I2 f a b - func_simpsons_rule f a b| < 15 * tol
    · rw [func_ASI_accept htol hab herr, func_ASI_tree_accept htol hab herr]
      simp [CallTree.value, CallTree.nodes]
    · rw [func_ASI_stuck htol hab herr, func_ASI_tree_stuck htol hab herr]
      rfl
  | succ n ih =>
    intro a b tol c htol hab
    by_cases herr : |I2 f a b - func_simpsons_rule f a b| < 15 * tol
    · rw [func_ASI_accept htol hab herr, func_ASI_tree_accept htol hab herr]
      simp [CallTree.value, CallTree.nodes]
    · rw [func_ASI_split htol hab herr, func_ASI_tree_split htol hab herr,
        ih _ _ _ _ (half_pos htol) (midpoint_ge hab)]
      cases h1 : func_ASI_tree n (some f) a ((a + b) / 2) (tol / 2) with
      | none => simp
      | some l =>
        simp only [Option.map_some', Option.some_bind]
        rw [ih _ _ _ _ (half_pos htol) (midpoint_le hab)]
        cases h2 : func_ASI_tree n (some f) ((a + b) / 2) b (tol / 2) with
        | none => simp
        | some r =>
          simp only [Option.map_some', Option.some_bind, CallTree.value, CallTree.nodes]
          rw [counter_step, counter_steps, Nat.add_assoc]

theorem func_ASI_tree_props (f : K → K) : ∀ (fuel : Nat) (a b tol : K) (t : CallTree K),
    0 < tol → a ≤ b → func_ASI_tree fuel (some f) a b tol = some t →
    t.hasRejected = false ∧ t.nodes % 2 = 1 ∧
      (t.leaves.map leafTol).sum = tol ∧
      (t.leaves.map (leafErrest f)).sum < 15 * tol ∧
      t.value f = (t.leaves.map (leafI2 f)).sum := by
  intro fuel
  induction fuel with
  | zero =>
    intro a b tol t htol hab h
    by_cases herr : |I2 f a b - func_simpsons_rule f a b| < 15 * tol
    · rw [func_ASI_tree_accept htol hab herr] at h
      cases h
      simp [CallTree.hasRejected, CallTree.nodes, CallTree.leaves, CallTree.value, leafTol,
        leafErrest, leafI2, errest, herr]
    · rw [func_ASI_tree_stuck htol hab herr] at h
      cases h
  | succ n ih =>
    intro a b tol t htol hab h
    by_cases herr : |I2 f a b - func_simpsons_rule f a b| < 15 * tol
    · rw [func_ASI_tree_accept htol hab herr] at h
      cases h
      simp [CallTree.hasRejected, CallTree.nodes, CallTree.leaves, CallTree.value, leafTol,
        leafErrest, leafI2, errest, herr]
    · rw [func_ASI_tree_split htol hab herr] at h
      cases h1 : func_ASI_tree n (some f) a ((a + b) / 2) (tol / 2) with
      | none => simp [h1] at h
      | some l =>
        cases h2 : func_ASI_tree n (some f) ((a + b) / 2) b (tol / 2) with
        | none => simp [h1, h2] at h
        | some r =>
          simp only [h1, h2, Option.some_bind, Option.some.injEq] at h
          subst h
          obtain ⟨l1, l2, l3, l4, l5⟩ := ih _ _ _ l (half_pos htol) (midpoint_ge hab) h1
          obtain ⟨r1, r2, r3, r4, r5⟩ := ih _ _ _ r (half_pos htol) (midpoint_le hab) h2
          refine ⟨?_, ?_, ?_, ?_, ?_⟩
          · simp [CallTree.hasRejected, l1, r1]
          · simp only [CallTree.nodes]; omega
          · simp only [CallTree.leaves, List.map_append, List.sum_append, l3, r3]
            ring
          · simp only [CallTree.leaves, List.map_append, List.sum_append]
            linarith
          · simp only [CallTree.leaves, List.map_append, List.sum_append, CallTree.value, l5, r5]

theorem func_ASI_tree_leafTol (f : K → K) : ∀ (fuel : Nat) (a b tol : K) (t : CallTree K),
    0 < tol → a ≤ b → func_ASI_tree fuel (some f) a b tol = some t →
    t.leaves.map leafTol = t.leafDepths.map fun d => tol / 2 ^ d := by
  have hhalf : ∀ (tol : K) (L : List Nat),
      (L.map fun d => tol / 2 / 2 ^ d) = (L.map (· + 1)).map fun d => tol / 2 ^ d := by
    intro tol L
    rw [List.map_map]
    refine List.map_congr_left fun d _ => ?_
    simp only [Function.comp, pow_succ]
    rw [div_div, mul_comm]
  intro fuel
  induction fuel with
  | zero =>
    intro a b tol t htol hab h
    by_cases herr : |I2 f a b - func_simpsons_rule f a b| < 15 * tol
    · rw [func_ASI_tree_accept htol hab herr] at h
      cases h
      simp [CallTree.leaves, CallTree.leafDepths, leafTol]
    · rw [func_ASI_tree_stuck htol hab herr] at h
      cases h
  | succ n ih =>
    intro a b tol t htol hab h
    by_cases herr : |I2 f a b - func_simpsons_rule f a b| < 15 * tol
    · rw [func_ASI_tree_accept htol hab herr] at h
      cases h
      simp [CallTree.leaves, CallTree.leafDepths, leafTol]
    · rw [func_ASI_tree_split htol hab herr] at h
      cases h1 : func_ASI_tree n (some f) a ((a + b) / 2) (tol / 2) with
      | none => simp [h1] at h
      | some l =>
        cases h2 : func_ASI_tree n (some f) ((a + b) / 2) b (tol / 2) with
        | none => simp [h1, h2] at h
        | some r =>
          simp only [h1, h2, Option.some_bind, Option.some.injEq] at h
          subst h
          have hl := ih _ _ _ l (half_pos htol) (midpoint_ge hab) h1
          have hr := ih _ _ _ r (half_pos htol) (midpoint_le hab) h2
          simp only [CallTree.leaves, CallTree.leafDepths, List.map_append, hl, hr, hhalf]

theorem abs_leaf_sum_le (f : K → K) (L : List (K × K × K)) :
    |(L.map (leafI2 f)).sum - (L.map (leafI1 f)).sum| ≤ (L.map (leafErrest f)).sum := by
  induction L with
  | nil => simp
  | cons x xs ih =>
    simp only [List.map_cons, List.sum_cons]
    have h : leafI2 f x + (xs.map (leafI2 f)).sum - (leafI1 f x + (xs.map (leafI1 f)).sum)
        = (leafI2 f x - leafI1 f x) + ((xs.map (leafI2 f)).sum - (xs.map (leafI1 f)).sum) := by
      ring
    rw [h]
    refine (abs_add _ _).trans ?_
    have hx : |leafI2 f x - leafI1 f x| = leafErrest f x := rfl
    rw [hx]
    linarith

theorem func_ASI_fuel_succ : ∀ (fuel : Nat) (func_f : Option (K → K)) (a b tol : K) (c : Nat)
    (r : K × Nat), func_ASI fuel func_f a b tol c = some r →
    func_ASI (fuel + 1) func_f a b tol c = some r := by
  intro fuel
  induction fuel with
  | zero =>
    intro func_f a b tol c r h
    by_cases htol : tol ≤ 0
    · rw [func_ASI_tol htol] at h ⊢; exact h
    cases func_f with
    | none => rw [func_ASI_null] at h ⊢; exact h
    | some f =>
      by_cases hab : a > b
      · rw [func_ASI_limits hab] at h ⊢; exact h
      have htol := not_le.mp htol
      have hab := not_lt.mp hab
      by_cases herr : |I2 f a b - func_simpsons_rule f a b| < 15 * tol
      · rw [func_ASI_accept htol hab herr] at h ⊢; exact h
      · rw [func_ASI_stuck htol hab herr] at h; cases h
  | succ n ih =>
    intro func_f a b tol c r h
    by_cases htol : tol ≤ 0
    · rw [func_ASI_tol htol] at h ⊢; exact h
    cases func_f with
    | none => rw [func_ASI_null] at h ⊢; exact h
    | some f =>
      by_cases hab : a > b
      · rw [func_ASI_limits hab] at h ⊢; exact h
      have htol := not_le.mp htol
      have hab := not_lt.mp hab
      by_cases herr : |I2 f a b - func_simpsons_rule f a b| < 15 * tol
      · rw [func_ASI_accept htol hab herr] at h ⊢; exact h
      · rw [func_ASI_split htol hab herr] at h ⊢
        cases h1 : func_ASI n (some f) a ((a + b) / 2) (tol / 2) ((c + 1) % 2 ^ 32) with
        | none => rw [h1] at h; simp at h
        | some l =>
          rw [h1] at h
          simp only [Option.some_bind] at h
          cases h2 : func_ASI n (some f) ((a + b) / 2) b (tol / 2) l.2 with
          | none => rw [h2] at h; simp at h
          | some r2 =>
            rw [ih _ _ _ _ _ _ h1]
            simp only [Option.some_bind]
            rw [ih _ _ _ _ _ _ h2]
            rw [h2] at h
            exact h

theorem func_ASI_fuel_mono (func_f : Option (K → K)) (a b tol : K) (c : Nat) (r : K × Nat)
    (n m : Nat) (hnm : n ≤ m) (h : func_ASI n func_f a b tol c = some r) :
    func_ASI m func_f a b tol c = some r := by
  induction hnm with
  | refl => exact h
  | step _ ih => exact func_ASI_fuel_succ _ _ _ _ _ _ _ ih

/-! ## Evaluation order of the two recursive calls -/

theorem func_ASI_right_first_invalid {fuel : Nat} {func_f : Option (K → K)} {a b tol : K}
    {c : Nat} (h : tol ≤ 0 ∨ func_f = none ∨ a > b) :
    func_ASI_right_first fuel func_f a b tol c = some (-1, c) := by
  unfold func_ASI_right_first
  split
  · rfl
  · cases func_f with
    | none => rfl
    | some f =>
      rcases h with h | h | h
      · contradiction
      · cases h
      · simp [h]

theorem func_ASI_right_first_accept {fuel : Nat} {f : K → K} {a b tol : K} {c : Nat}
    (htol : 0 < tol) (hab : a ≤ b)
    (herr : |I2 f a b - func_simpsons_rule f a b| < 15 * tol) :
    func_ASI_right_first fuel (some f) a b tol c = some (I2 f a b, (c + 1) % 2 ^ 32) := by
  unfold func_ASI_right_first
  simp only [I2] at herr
  simp [not_le.mpr htol, not_lt.mpr hab, herr, I2]

theorem func_ASI_right_first_split {fuel : Nat} {f : K → K} {a b tol : K} {c : Nat}
    (htol : 0 < tol) (hab : a ≤ b)
    (herr : ¬ |I2 f a b - func_simpsons_rule f a b| < 15 * tol) :
    func_ASI_right_first (fuel + 1) (some f) a b tol c =
      (func_ASI_right_first fuel (some f) ((a + b) / 2) b (tol / 2) ((c + 1) % 2 ^ 32)).bind
        fun r => (func_ASI_right_first fuel (some f) a ((a + b) / 2) (tol / 2) r.2).bind
          fun l => some (l.1 + r.1, l.2) := by
  rw [func_ASI_right_first]
  simp only [I2] at herr
  simp only [not_le.mpr htol, not_lt.mpr hab, herr, if_false, gt_iff_lt]
  cases h1 : func_ASI_right_first fuel (some f) ((a + b) / 2) b (tol / 2)
      ((c + 1) % 2 ^ 32) with
  | none => simp
  | some r =>
    obtain ⟨r1, r2⟩ := r
    cases h2 : func_ASI_right_first fuel (some f) a ((a + b) / 2) (tol / 2) r2 with
    | none => simp [h2]
    | some l => simp [h2]

theorem func_ASI_right_first_stuck {f : K → K} {a b tol : K} {c : Nat}
    (htol : 0 < tol) (hab : a ≤ b)
    (herr : ¬ |I2 f a b - func_simpsons_rule f a b| < 15 * tol) :
    func_ASI_right_first 0 (some f) a b tol c = none := by
  rw [func_ASI_right_first]
  simp only [I2] at herr
  simp only [not_le.mpr htol, not_lt.mpr hab, herr, if_false, gt_iff_lt]

theorem func_ASI_right_first_eq_tree (f : K → K) : ∀ (fuel : Nat) (a b tol : K) (c : Nat),
    0 < tol → a ≤ b →
    func_ASI_right_first fuel (some f) a b tol c =
      (func_ASI_tree fuel (some f) a b tol).map fun t =>
        (t.value f, (c + t.nodes) % 2 ^ 32) := by
  intro fuel
  induction fuel with
  | zero =>
    intro a b tol c htol hab
    by_cases herr : |I2 f a b - func_simpsons_rule f a b| < 15 * tol
    · rw [func_ASI_right_first_accept htol hab herr, func_ASI_tree_accept htol hab herr]
      simp [CallTree.value, CallTree.nodes]
    · rw [func_ASI_right_first_stuck htol hab herr, func_ASI_tree_stuck htol hab herr]
      rfl
  | succ n ih =>
    intro a b tol c htol hab
    by_cases herr : |I2 f a b - func_simpsons_rule f a b| < 15 * tol
    · rw [func_ASI_right_first_accept htol hab herr, func_ASI_tree_accept htol hab herr]
      simp [CallTree.value, CallTree.nodes]
    · rw [func_ASI_right_first_split htol hab herr, func_ASI_tree_split htol hab herr,
        ih _ _ _ _ (half_pos htol) (midpoint_le hab)]
      cases h2 : func_ASI_tree n (some f) ((a + b) / 2) b (tol / 2) with
      | none =>
        cases h1 : func_ASI_tree n (some f) a ((a + b) / 2) (tol / 2) <;> simp
      | some r =>
        simp only [Option.map_some', Option.some_bind]
        rw [ih _ _ _ _ (half_pos htol) (midpoint_ge hab)]
        cases h1 : func_ASI_tree n (some f) a ((a + b) / 2) (tol / 2) with
        | none => simp
        | some l =>
          simp only [Option.map_some', Option.some_bind, CallTree.value, CallTree.nodes]
          rw [counter_step, counter_steps]
          have e : c + (1 + r.nodes + l.nodes) = c + (1 + l.nodes + r.nodes) := by omega
          rw [e]

/-- Evaluating the right recursive call before the left one gives the same value and the
same final counter on every input. -/
theorem func_ASI_right_first_eq (fuel : Nat) (func_f : Option (K → K)) (a b tol : K)
    (c : Nat) :
    func_ASI_right_first fuel func_f a b tol c = func_ASI fuel func_f a b tol c := by
  by_cases htol : tol ≤ 0
  · rw [func_ASI_tol htol, func_ASI_right_first_invalid (Or.inl htol)]
  cases func_f with
  | none => rw [func_ASI_null, func_ASI_right_first_invalid (Or.inr (Or.inl rfl))]
  | some f =>
    by_cases hab : a > b
    · rw [func_ASI_limits hab, func_ASI_right_first_invalid (Or.inr (Or.inr hab))]
    · rw [func_ASI_eq_tree f fuel a b tol c (not_le.mp htol) (not_lt.mp hab),
        func_ASI_right_first_eq_tree f fuel a b tol c (not_le.mp htol) (not_lt.mp hab)]
/-! ## Validation (C1, C4, C6) -/

theorem func_ASI_invalid {fuel : Nat} {func_f : Option (K → K)} {a b tol : K} {c : Nat}
    (h : tol ≤ 0 ∨ func_f = none ∨ a > b) : func_ASI fuel func_f a b tol c = some (-1, c) := by
  rcases h with h | h | h
  · exact func_ASI_tol h
  · subst h; exact func_ASI_null
  · exact func_ASI_limits h

/-- C1: whenever validation fails (tolerance at most zero, or an absent integrand, or
`begin_limit > end_limit`), whatever the other arguments are, `func_ASI` returns the
sentinel `-1`. -/
theorem C1_invalid_input_returns_sentinel (fuel : Nat) (func_f : Option (K → K))
    (begin_limit end_limit tolerance : K) (func_call_counter : Nat)
    (h : tolerance ≤ 0 ∨ func_f = none ∨ begin_limit > end_limit) :
    (func_ASI fuel func_f begin_limit end_limit tolerance func_call_counter).map Prod.fst
      = some (-1) := by
  rw [func_ASI_invalid h]
  rfl

/-- C1, at the three inputs of the unit tests: tolerance `-0.005` on `[0, 1]`, the null
function, and the limits `1 > 0`. -/
theorem C1_invalid_input_returns_sentinel_witness :
    (func_ASI 0 (some fun x : ℚ => x) 0 1 (-(5 / 1000)) 0).map Prod.fst = some (-1) ∧
    (func_ASI 0 (none : Option (ℚ → ℚ)) 0 1 (5 / 1000) 0).map Prod.fst = some (-1) ∧
    (func_ASI 0 (some fun x : ℚ => x) 1 0 (5 / 1000) 0).map Prod.fst = some (-1) :=
  ⟨C1_invalid_input_returns_sentinel 0 _ 0 1 _ 0 (Or.inl (by norm_num)),
   C1_invalid_input_returns_sentinel 0 none 0 1 _ 0 (Or.inr (Or.inl rfl)),
   C1_invalid_input_returns_sentinel 0 _ 1 0 _ 0 (Or.inr (Or.inr (by norm_num)))⟩

/-- C4, refuted as stated: it is not the case that every invocation failing validation
returns with the counter incremented by one. With tolerance `-0.005` on `[0, 1]` and the
counter at `0`, the counter is still `0` afterwards. -/
theorem C4_counter_increment_on_failure_false :
    ¬ ∀ (fuel : Nat) (func_f : Option (ℚ → ℚ)) (a b tol : ℚ) (c : Nat),
        (tol ≤ 0 ∨ func_f = none ∨ a > b) →
        (func_ASI fuel func_f a b tol c).map Prod.snd = some ((c + 1) % 2 ^ 32) := by
  intro h
  have h1 := h 0 (some fun x : ℚ => x) 0 1 (-(5 / 1000)) 0 (Or.inl (by norm_num))
  rw [func_ASI_tol (by norm_num)] at h1
  simp at h1

/-- C4, amended: an invocation that fails validation (tolerance at most zero, or an
absent integrand, or `begin_limit > end_limit`) returns `-1` without incrementing the
call counter: the counter is left exactly as it was. -/
theorem C4_counter_unchanged_on_failure (fuel : Nat) (func_f : Option (K → K))
    (a b tol : K) (c : Nat) (h : tol ≤ 0 ∨ func_f = none ∨ a > b) :
    func_ASI fuel func_f a b tol c = some (-1, c) :=
  func_ASI_invalid h

/-- C4 amended, at the three inputs of the unit tests with the counter at `7`. -/
theorem C4_counter_unchanged_on_failure_witness :
    func_ASI 0 (some fun x : ℚ => x) 0 1 (-(5 / 1000)) 7 = some (-1, 7) ∧
    func_ASI 0 (none : Option (ℚ → ℚ)) 0 1 (5 / 1000) 7 = some (-1, 7) ∧
    func_ASI 0 (some fun x : ℚ => x) 1 0 (5 / 1000) 7 = some (-1, 7) :=
  ⟨C4_counter_unchanged_on_failure 0 _ 0 1 _ 7 (Or.inl (by norm_num)),
   C4_counter_unchanged_on_failure 0 none 0 1 _ 7 (Or.inr (Or.inl rfl)),
   C4_counter_unchanged_on_failure 0 _ 1 0 _ 7 (Or.inr (Or.inr (by norm_num)))⟩

/-- C6: a return value of `-1` does not imply a validation failure. The constant
integrand `-1` on `[0, 1]` with tolerance `0.005` is a valid input, and `func_ASI`
returns `-1` for it after one counter increment, the same value as the sentinel that
the invalid call with limits `1 > 0` returns. -/
theorem C6_sentinel_collides_with_valid_result :
    ((0 : ℚ) ≤ 1 ∧ (0 : ℚ) < 5 / 1000) ∧
    (∀ fuel c, func_ASI fuel (some fun _ : ℚ => -1) 0 1 (5 / 1000) c
      = some (-1, (c + 1) % 2 ^ 32)) ∧
    (∀ fuel c, func_ASI fuel (some fun _ : ℚ => -1) 1 0 (5 / 1000) c = some (-1, c)) := by
  refine ⟨by norm_num, ?_, ?_⟩
  · intro fuel c
    rw [func_ASI_accept (by norm_num) (by norm_num)
      (by norm_num [I2, func_simpsons_rule])]
    norm_num [I2, func_simpsons_rule]
  · intro fuel c
    exact func_ASI_limits (by norm_num)

/-! ## The recursion step (C7) -/

/-- C7: on a valid input, with `I1` the whole-interval estimate, `m` the midpoint and
`I2` the sum of the two half-interval estimates: if `|I2 - I1| < 15 * tolerance` then
`func_ASI` returns `I2` after a single counter increment; otherwise, the boundary case
`|I2 - I1| = 15 * tolerance` included, it returns the sum of the two recursive calls on
`[a, m]` and `[m, b]` with tolerance `tolerance / 2`, the second call continuing from the
counter the first one left. -/
theorem C7_accept_or_recurse (fuel : Nat) (f : K → K) (a b tolerance : K) (c : Nat)
    (htol : 0 < tolerance) (hab : a ≤ b) :
    (|func_simpsons_rule f a ((a + b) / 2) + func_simpsons_rule f ((a + b) / 2) b
        - func_simpsons_rule f a b| < 15 * tolerance →
      func_ASI fuel (some f) a b tolerance c =
        some (func_simpsons_rule f a ((a + b) / 2) + func_simpsons_rule f ((a + b) / 2) b,
          (c + 1) % 2 ^ 32)) ∧
    (¬ |func_simpsons_rule f a ((a + b) / 2) + func_simpsons_rule f ((a + b) / 2) b
        - func_simpsons_rule f a b| < 15 * tolerance →
      func_ASI (fuel + 1) (some f) a b tolerance c =
        (func_ASI fuel (some f) a ((a + b) / 2) (tolerance / 2) ((c + 1) % 2 ^ 32)).bind
          fun l => (func_ASI fuel (some f) ((a + b) / 2) b (tolerance / 2) l.2).bind
            fun r => some (l.1 + r.1, r.2)) ∧
    (|func_simpsons_rule f a ((a + b) / 2) + func_simpsons_rule f ((a + b) / 2) b
        - func_simpsons_rule f a b| = 15 * tolerance →
      func_ASI (fuel + 1) (some f) a b tolerance c =
        (func_ASI fuel (some f) a ((a + b) / 2) (tolerance / 2) ((c + 1) % 2 ^ 32)).bind
          fun l => (func_ASI fuel (some f) ((a + b) / 2) b (tolerance / 2) l.2).bind
            fun r => some (l.1 + r.1, r.2)) := by
  refine ⟨fun h => func_ASI_accept htol hab h, fun h => func_ASI_split htol hab h, fun h => ?_⟩
  exact func_ASI_split htol hab (by rw [I2, h]; exact lt_irrefl _)

/-- C7 on `x ^ 4` over `[0, 1]` with tolerance `0.0001`: the root is not accepted and the
call is the sum of the two recursive calls. -/
theorem C7_accept_or_recurse_witness :
    func_ASI 1 (some fun x : ℚ => x ^ 4) 0 1 (1 / 10000) 0 =
      (func_ASI 0 (some fun x : ℚ => x ^ 4) 0 ((0 + 1) / 2) (1 / 10000 / 2)
        ((0 + 1) % 2 ^ 32)).bind
        fun l => (func_ASI 0 (some fun x : ℚ => x ^ 4) ((0 + 1) / 2) 1 (1 / 10000 / 2) l.2).bind
          fun r => some (l.1 + r.1, r.2) :=
  (C7_accept_or_recurse 0 (fun x : ℚ => x ^ 4) 0 1 (1 / 10000) 0 (by norm_num)
    (by norm_num)).2.1 (by norm_num [func_simpsons_rule, abs_lt])

/-! ## The call counter over exact arithmetic -/

/-- Over exact arithmetic no invocation below a valid root fails validation, so on a
valid input on which `func_ASI` returns, the final counter is the initial one plus the
number of all nodes of the recursion tree, modulo `2 ^ 32`; that number is odd, so a
counter below `2 ^ 32` always changes. -/
theorem func_ASI_counter_exact (fuel : Nat) (f : K → K) (a b tol : K) (c : Nat)
    (v : K) (c' : Nat) (htol : 0 < tol) (hab : a ≤ b)
    (h : func_ASI fuel (some f) a b tol c = some (v, c')) :
    ∃ t, func_ASI_tree fuel (some f) a b tol = some t ∧
      c' = (c + t.nodes) % 2 ^ 32 ∧ 1 ≤ t.nodes ∧ (c < 2 ^ 32 → c' ≠ c) ∧
      ∀ d, func_ASI fuel (some f) a b tol d = some (v, (d + t.nodes) % 2 ^ 32) := by
  have hlink := func_ASI_eq_tree f fuel a b tol
  rw [hlink c htol hab] at h
  cases ht : func_ASI_tree fuel (some f) a b tol with
  | none => rw [ht] at h; cases h
  | some t =>
    rw [ht] at h
    simp only [Option.map_some', Option.some.injEq, Prod.mk.injEq] at h
    obtain ⟨hv, hc⟩ := h
    have hodd := (func_ASI_tree_props f fuel a b tol t htol hab ht).2.1
    refine ⟨t, rfl, hc.symm, by omega, ?_, ?_⟩
    · intro hlt; omega
    · intro d
      rw [hlink d htol hab, ht, Option.map_some', hv]

/-! ## The error budget (C10) -/

/-- C10: on a valid input on which `func_ASI` returns `v` with top-level tolerance
`tol`, the tolerance handed to an accepted interval at depth `d` is `tol / 2 ^ d`, these
tolerances sum to exactly `tol`, the local error estimates `|I2 - I1|` of the accepted
intervals sum to strictly less than `15 * tol`, and `v` differs from the sum of the
whole-interval Simpson estimates of the accepted intervals by less than `15 * tol`. -/
theorem C10_leaf_error_budget (fuel : Nat) (f : K → K) (a b tol : K) (c : Nat)
    (v : K) (c' : Nat) (htol : 0 < tol) (hab : a ≤ b)
    (h : func_ASI fuel (some f) a b tol c = some (v, c')) :
    ∃ t, func_ASI_tree fuel (some f) a b tol = some t ∧
      (t.leaves.map leafTol = t.leafDepths.map fun d => tol / 2 ^ d) ∧
      (t.leaves.map leafTol).sum = tol ∧
      (t.leaves.map (leafErrest f)).sum < 15 * tol ∧
      |v - (t.leaves.map (leafI1 f)).sum| < 15 * tol := by
  rw [func_ASI_eq_tree f fuel a b tol c htol hab] at h
  cases ht : func_ASI_tree fuel (some f) a b tol with
  | none => rw [ht] at h; cases h
  | some t =>
    rw [ht] at h
    simp only [Option.map_some', Option.some.injEq, Prod.mk.injEq] at h
    obtain ⟨hv, _⟩ := h
    obtain ⟨_, _, h3, h4, h5⟩ := func_ASI_tree_props f fuel a b tol t htol hab ht
    refine ⟨t, rfl, func_ASI_tree_leafTol f fuel a b tol t htol hab ht, h3, h4, ?_⟩
    rw [← hv, h5]
    exact lt_of_le_of_lt (abs_leaf_sum_le f _) h4

/-- C10 on `x ^ 4` over `[0, 1]` with tolerance `0.0001`. -/
theorem C10_leaf_error_budget_witness :
    ∃ t, func_ASI_tree 1 (some fun x : ℚ => x ^ 4) 0 1 (1 / 10000) = some t ∧
      (t.leaves.map leafTol = t.leafDepths.map fun d => (1 : ℚ) / 10000 / 2 ^ d) ∧
      (t.leaves.map leafTol).sum = 1 / 10000 ∧
      (t.leaves.map (leafErrest fun x : ℚ => x ^ 4)).sum < 15 * (1 / 10000) ∧
      |1229 / 6144 - (t.leaves.map (leafI1 fun x : ℚ => x ^ 4)).sum| < 15 * (1 / 10000) :=
  C10_leaf_error_budget 1 (fun x : ℚ => x ^ 4) 0 1 (1 / 10000) 0 (1229 / 6144) 3
    (by norm_num) (by norm_num)
    (by
      rw [func_ASI_split (by norm_num) (by norm_num)
          (by norm_num [I2, func_simpsons_rule, abs_lt]),
        func_ASI_accept (by norm_num) (by norm_num)
          (by norm_num [I2, func_simpsons_rule, abs_lt])]
      simp only [Option.some_bind]
      rw [func_ASI_accept (by norm_num) (by norm_num)
          (by norm_num [I2, func_simpsons_rule, abs_lt])]
      norm_num [I2, func_simpsons_rule])

/-! ## Validation below the root (C8) -/

theorem func_ASI_unchecked_accept {fuel : Nat} {f : K → K} {a b tol : K} {c : Nat}
    (herr : |I2 f a b - func_simpsons_rule f a b| < 15 * tol) :
    func_ASI_unchecked fuel f a b tol c = some (I2 f a b, (c + 1) % 2 ^ 32) := by
  unfold func_ASI_unchecked
  simp only [I2] at herr
  simp [herr, I2]

theorem func_ASI_unchecked_split {fuel : Nat} {f : K → K} {a b tol : K} {c : Nat}
    (herr : ¬ |I2 f a b - func_simpsons_rule f a b| < 15 * tol) :
    func_ASI_unchecked (fuel + 1) f a b tol c =
      (func_ASI_unchecked fuel f a ((a + b) / 2) (tol / 2) ((c + 1) % 2 ^ 32)).bind fun l =>
        (func_ASI_unchecked fuel f ((a + b) / 2) b (tol / 2) l.2).bind fun r =>
          some (l.1 + r.1, r.2) := by
  rw [func_ASI_unchecked]
  simp only [I2] at herr
  simp only [herr, if_false]
  cases h1 : func_ASI_unchecked fuel f a ((a + b) / 2) (tol / 2) ((c + 1) % 2 ^ 32) with
  | none => simp
  | some l =>
    obtain ⟨l1, l2⟩ := l
    cases h2 : func_ASI_unchecked fuel f ((a + b) / 2) b (tol / 2) l2 with
    | none => simp [h2]
    | some r => simp [h2]

theorem func_ASI_unchecked_stuck {f : K → K} {a b tol : K} {c : Nat}
    (herr : ¬ |I2 f a b - func_simpsons_rule f a b| < 15 * tol) :
    func_ASI_unchecked 0 f a b tol c = none := by
  rw [func_ASI_unchecked]
  simp only [I2] at herr
  simp only [herr, if_false]

theorem func_ASI_eq_unchecked (f : K → K) : ∀ (fuel : Nat) (a b tol : K) (c : Nat),
    0 < tol → a ≤ b →
    func_ASI fuel (some f) a b tol c = func_ASI_unchecked fuel f a b tol c := by
  intro fuel
  induction fuel with
  | zero =>
    intro a b tol c htol hab
    by_cases herr : |I2 f a b - func_simpsons_rule f a b| < 15 * tol
    · rw [func_ASI_accept htol hab herr, func_ASI_unchecked_accept herr]
    · rw [func_ASI_stuck htol hab herr, func_ASI_unchecked_stuck herr]
  | succ n ih =>
    intro a b tol c htol hab
    by_cases herr : |I2 f a b - func_simpsons_rule f a b| < 15 * tol
    · rw [func_ASI_accept htol hab herr, func_ASI_unchecked_accept herr]
    · rw [func_ASI_split htol hab herr, func_ASI_unchecked_split herr,
        ih _ _ _ _ (half_pos htol) (midpoint_ge hab)]
      congr 1
      funext l
      rw [ih _ _ _ _ (half_pos htol) (midpoint_le hab)]

/-- C8: on a valid top-level input the arguments of both recursive calls are valid
again (the midpoint lies between the limits and the halved tolerance is positive), no
invocation of the recursion tree fails validation, and `func_ASI` returns the same
result and counter as the variant that validates only at the outermost call. -/
theorem C8_revalidation_is_redundant (fuel : Nat) (f : K → K) (a b tol : K) (c : Nat)
    (htol : 0 < tol) (hab : a ≤ b) :
    (a ≤ (a + b) / 2 ∧ (a + b) / 2 ≤ b ∧ 0 < tol / 2) ∧
    (∀ t, func_ASI_tree fuel (some f) a b tol = some t → t.hasRejected = false) ∧
    func_ASI fuel (some f) a b tol c = func_ASI_validate_once fuel (some f) a b tol c := by
  refine ⟨⟨midpoint_ge hab, midpoint_le hab, half_pos htol⟩, ?_, ?_⟩
  · intro t ht
    exact (func_ASI_tree_props f fuel a b tol t htol hab ht).1
  · rw [func_ASI_eq_unchecked f fuel a b tol c htol hab]
    simp [func_ASI_validate_once, not_le.mpr htol, not_lt.mpr hab]

/-- C8 on `x ^ 4` over `[0, 1]` with tolerance `0.0001`. -/
theorem C8_revalidation_is_redundant_witness :
    (((0 : ℚ) ≤ (0 + 1) / 2 ∧ ((0 : ℚ) + 1) / 2 ≤ 1 ∧ (0 : ℚ) < 1 / 10000 / 2) ∧
    (∀ t, func_ASI_tree 1 (some fun x : ℚ => x ^ 4) 0 1 (1 / 10000) = some t →
      t.hasRejected = false) ∧
    func_ASI 1 (some fun x : ℚ => x ^ 4) 0 1 (1 / 10000) 0
      = func_ASI_validate_once 1 (some fun x : ℚ => x ^ 4) 0 1 (1 / 10000) 0) :=
  C8_revalidation_is_redundant 1 (fun x : ℚ => x ^ 4) 0 1 (1 / 10000) 0
    (by norm_num) (by norm_num)

/-- The equality with the validate-once variant holds on every input, valid or not. -/
theorem func_ASI_eq_validate_once (fuel : Nat) (func_f : Option (K → K)) (a b tol : K)
    (c : Nat) :
    func_ASI fuel func_f a b tol c = func_ASI_validate_once fuel func_f a b tol c := by
  by_cases htol : tol ≤ 0
  · rw [func_ASI_tol htol]; simp [func_ASI_validate_once, htol]
  cases func_f with
  | none => rw [func_ASI_null]; simp [func_ASI_validate_once, htol]
  | some f =>
    by_cases hab : a > b
    · rw [func_ASI_limits hab]; simp [func_ASI_validate_once, htol, hab]
    · rw [func_ASI_eq_unchecked f fuel a b tol c (not_le.mp htol) (not_lt.mp hab)]
      simp [func_ASI_validate_once, htol, hab]

/-! ## Exactness on cubics (C2, C3) -/

theorem func_simpsons_rule_cubic (c0 c1 c2 c3 a b : K) :
    func_simpsons_rule (fun x => c0 + c1 * x + c2 * x ^ 2 + c3 * x ^ 3) a b
      = cubicPrimitive c0 c1 c2 c3 b - cubicPrimitive c0 c1 c2 c3 a := by
  simp only [func_simpsons_rule, cubicPrimitive]
  ring

theorem I2_cubic (c0 c1 c2 c3 a b : K) :
    I2 (fun x => c0 + c1 * x + c2 * x ^ 2 + c3 * x ^ 3) a b
      = cubicPrimitive c0 c1 c2 c3 b - cubicPrimitive c0 c1 c2 c3 a := by
  rw [I2, func_simpsons_rule_cubic, func_simpsons_rule_cubic]
  ring

theorem eval_cubic (p : Polynomial ℝ) (hp : p.natDegree ≤ 3) :
    (fun x => p.eval x) =
      fun x => p.coeff 0 + p.coeff 1 * x + p.coeff 2 * x ^ 2 + p.coeff 3 * x ^ 3 := by
  funext x
  rw [Polynomial.eval_eq_sum_range' (Nat.lt_succ_of_le hp)]
  simp [Finset.sum_range_succ]

theorem integral_cubic (c0 c1 c2 c3 a b : ℝ) :
    ∫ x in a..b, (c0 + c1 * x + c2 * x ^ 2 + c3 * x ^ 3) =
      cubicPrimitive c0 c1 c2 c3 b - cubicPrimitive c0 c1 c2 c3 a := by
  have h0 : IntervalIntegrable (fun _ : ℝ => c0) MeasureTheory.volume a b :=
    Continuous.intervalIntegrable (by continuity) _ _
  have h1 : IntervalIntegrable (fun x : ℝ => c1 * x) MeasureTheory.volume a b :=
    Continuous.intervalIntegrable (by continuity) _ _
  have h2 : IntervalIntegrable (fun x : ℝ => c2 * x ^ 2) MeasureTheory.volume a b :=
    Continuous.intervalIntegrable (by continuity) _ _
  have h3 : IntervalIntegrable (fun x : ℝ => c3 * x ^ 3) MeasureTheory.volume a b :=
    Continuous.intervalIntegrable (by continuity) _ _
  rw [intervalIntegral.integral_add ((h0.add h1).add h2) h3,
    intervalIntegral.integral_add (h0.add h1) h2, intervalIntegral.integral_add h0 h1]
  have hid : ∫ x in a..b, (x : ℝ) = (b ^ 2 - a ^ 2) / 2 := integral_id
  have hlin : ∫ x in a..b, c1 * x = c1 * ((b ^ 2 - a ^ 2) / 2) := by
    rw [intervalIntegral.integral_const_mul, hid]
  simp only [intervalIntegral.integral_const_mul, integral_pow, hlin,
    intervalIntegral.integral_const, smul_eq_mul, cubicPrimitive]
  norm_num
  ring

theorem integral_poly (p : Polynomial ℝ) (hp : p.natDegree ≤ 3) (a b : ℝ) :
    ∫ x in a..b, p.eval x =
      cubicPrimitive (p.coeff 0) (p.coeff 1) (p.coeff 2) (p.coeff 3) b
        - cubicPrimitive (p.coeff 0) (p.coeff 1) (p.coeff 2) (p.coeff 3) a := by
  rw [← integral_cubic]
  exact congrArg (fun g : ℝ → ℝ => ∫ x in a..b, g x) (eval_cubic p hp)

/-- C3: `func_simpsons_rule f a b` is `(b - a) / 6 * (f a + 4 * f ((a + b) / 2) + f b)`,
and over the reals it equals the integral of `f` over `[a, b]` for every polynomial `f` of
degree at most three and all `a`, `b`. -/
theorem C3_simpson_formula_and_cubic_exactness (p : Polynomial ℝ) (hp : p.natDegree ≤ 3)
    (a b : ℝ) :
    (∀ f : ℝ → ℝ,
      func_simpsons_rule f a b = (b - a) / 6 * (f a + 4 * f ((a + b) / 2) + f b)) ∧
    func_simpsons_rule (fun x => p.eval x) a b = ∫ x in a..b, p.eval x := by
  refine ⟨fun f => rfl, ?_⟩
  rw [integral_poly p hp, eval_cubic p hp, func_simpsons_rule_cubic]

/-- C3 at `x ^ 2` on `[0, 2]`: the rule agrees with the integral, and evaluates to `8/3`. -/
theorem C3_simpson_formula_and_cubic_exactness_witness :
    (Polynomial.X ^ 2 : Polynomial ℝ).natDegree ≤ 3 ∧
    func_simpsons_rule (fun x => (Polynomial.X ^ 2 : Polynomial ℝ).eval x) 0 2
      = ∫ x in (0 : ℝ)..2, (Polynomial.X ^ 2 : Polynomial ℝ).eval x ∧
    func_simpsons_rule (fun x : ℚ => x ^ 2) 0 2 = 8 / 3 :=
  ⟨by simp,
   (C3_simpson_formula_and_cubic_exactness (Polynomial.X ^ 2) (by simp) 0 2).2,
   by norm_num [func_simpsons_rule]⟩

/-- C2: for every polynomial integrand of degree at most three, every interval with
`begin_limit ≤ end_limit` and every positive tolerance, over the reals `func_ASI` returns
exactly the integral over the interval and does not recurse: the recursion tree is the
single accepted root and the counter is incremented once. -/
theorem C2_cubic_exact_without_recursion (p : Polynomial ℝ) (hp : p.natDegree ≤ 3)
    (begin_limit end_limit tolerance : ℝ) (hab : begin_limit ≤ end_limit)
    (htol : 0 < tolerance) (fuel c : Nat) :
    func_ASI fuel (some fun x => p.eval x) begin_limit end_limit tolerance c
      = some (∫ x in begin_limit..end_limit, p.eval x, (c + 1) % 2 ^ 32) ∧
    func_ASI_tree fuel (some fun x => p.eval x) begin_limit end_limit tolerance
      = some (.accepted begin_limit end_limit tolerance) := by
  have herr : |I2 (fun x => p.eval x) begin_limit end_limit
      - func_simpsons_rule (fun x => p.eval x) begin_limit end_limit| < 15 * tolerance := by
    rw [eval_cubic p hp, I2_cubic, func_simpsons_rule_cubic, sub_self, abs_zero]
    linarith
  refine ⟨?_, func_ASI_tree_accept htol hab herr⟩
  rw [func_ASI_accept htol hab herr, integral_poly p hp, eval_cubic p hp, I2_cubic]

/-- C2 at `f(x) = x` on `[0, 1]` with tolerance `0.005`: the result is the integral, and
the rational evaluation gives `0.5` with the counter going from `0` to `1`. -/
theorem C2_cubic_exact_without_recursion_witness :
    (Polynomial.X : Polynomial ℝ).natDegree ≤ 3 ∧ (0 : ℝ) ≤ 1 ∧ (0 : ℝ) < 5 / 1000 ∧
    func_ASI 0 (some fun x => (Polynomial.X : Polynomial ℝ).eval x) 0 1 (5 / 1000) 0
      = some (∫ x in (0 : ℝ)..1, (Polynomial.X : Polynomial ℝ).eval x, (0 + 1) % 2 ^ 32) ∧
    func_ASI 0 (some fun x : ℚ => x) 0 1 (5 / 1000) 0 = some (1 / 2, 1) :=
  ⟨by simp, by norm_num, by norm_num,
   (C2_cubic_exact_without_recursion Polynomial.X (by simp) 0 1 (5 / 1000) (by norm_num)
      (by norm_num) 0 0).1,
   by
     rw [func_ASI_accept (by norm_num) (by norm_num)
       (by norm_num [I2, func_simpsons_rule])]
     norm_num [I2, func_simpsons_rule]⟩

/-! ## Unbounded recursion (C9) -/

theorem step_third_lt {x : K} (h : x < 1 / 3) : step_third x = 0 := by
  unfold step_third
  rw [if_pos h]

theorem step_third_ge {x : K} (h : 1 / 3 ≤ x) : step_third x = 1 := by
  unfold step_third
  rw [if_neg (not_lt.mpr h)]

theorem step_third_errest {a b tol : K} (ha : a < 1 / 3) (hb : 1 / 3 ≤ b)
    (hbudget : 15 * tol ≤ (b - a) / 12) :
    ¬ |I2 step_third a b - func_simpsons_rule step_third a b| < 15 * tol := by
  have hab : 0 < b - a := by linarith
  have key : (b - a) / 12 ≤ |I2 step_third a b - func_simpsons_rule step_third a b| := by
    simp only [I2, func_simpsons_rule]
    rw [step_third_lt ha, step_third_ge hb]
    rw [le_abs]
    rcases lt_or_le ((a + b) / 2) (1 / 3) with hm | hm
    · have h1 : (a + (a + b) / 2) / 2 < 1 / 3 := by linarith
      rw [step_third_lt hm, step_third_lt h1]
      rcases lt_or_le (((a + b) / 2 + b) / 2) (1 / 3) with h2 | h2
      · rw [step_third_lt h2]
        right
        nlinarith
      · rw [step_third_ge h2]
        left
        nlinarith
    · have h2 : 1 / 3 ≤ ((a + b) / 2 + b) / 2 := by linarith
      rw [step_third_ge hm, step_third_ge h2]
      rcases lt_or_le ((a + (a + b) / 2) / 2) (1 / 3) with h1 | h1
      · rw [step_third_lt h1]
        right
        nlinarith
      · rw [step_third_ge h1]
        left
        nlinarith
  intro hlt
  linarith

theorem func_ASI_step_third_none : ∀ (fuel : Nat) (a b tol : K) (c : Nat),
    0 < tol → a < 1 / 3 → 1 / 3 ≤ b → 15 * tol ≤ (b - a) / 12 →
    func_ASI fuel (some step_third) a b tol c = none := by
  intro fuel
  induction fuel with
  | zero =>
    intro a b tol c htol ha hb hbudget
    exact func_ASI_stuck htol (by linarith) (step_third_errest ha hb hbudget)
  | succ n ih =>
    intro a b tol c htol ha hb hbudget
    rw [func_ASI_split htol (by linarith) (step_third_errest ha hb hbudget)]
    rcases lt_or_le ((a + b) / 2) (1 / 3) with hm | hm
    · cases h1 : func_ASI n (some step_third) a ((a + b) / 2) (tol / 2) ((c + 1) % 2 ^ 32) with
      | none => rfl
      | some l =>
        simp only [Option.some_bind]
        rw [ih _ _ _ _ (half_pos htol) hm hb (by linarith)]
        rfl
    · rw [ih _ _ _ _ (half_pos htol) ha hm (by linarith)]
      rfl

theorem jumpInterval_spec (d : Nat) :
    (jumpInterval d).1 < 1 / 3 ∧ 1 / 3 ≤ (jumpInterval d).2 ∧
      (jumpInterval d).2 - (jumpInterval d).1 = 1 / 2 ^ d := by
  induction d with
  | zero => norm_num [jumpInterval]
  | succ n ih =>
    obtain ⟨h1, h2, h3⟩ := ih
    simp only [jumpInterval]
    split
    · rename_i hm
      refine ⟨h1, hm, ?_⟩
      rw [pow_succ]
      field_simp
      field_simp at h3
      linarith
    · rename_i hm
      refine ⟨not_le.mp hm, h2, ?_⟩
      rw [pow_succ]
      field_simp
      field_simp at h3
      linarith

/-- C9: `func_ASI` has no depth or width guard, and on the valid input given by the step
function that is `0` below `1/3` and `1` from `1/3` on, over `[0, 1]` with tolerance
`0.005`, the recursion never ends: no recursion depth suffices for a result, because at
every depth `d` the sub-interval that contains the jump is valid input whose error
estimate is at least `15` times its tolerance `0.005 / 2 ^ d`. -/
theorem C9_step_function_never_terminates :
    ((0 : ℚ) ≤ 1 ∧ (0 : ℚ) < 5 / 1000) ∧
    (∀ fuel c, func_ASI fuel (some (step_third : ℚ → ℚ)) 0 1 (5 / 1000) c = none) ∧
    (∀ d, (jumpInterval d).1 ≤ (jumpInterval d).2 ∧ (0 : ℚ) < 5 / 1000 / 2 ^ d ∧
      15 * (5 / 1000 / 2 ^ d) ≤ errest step_third (jumpInterval d).1 (jumpInterval d).2) := by
  refine ⟨by norm_num, ?_, ?_⟩
  · intro fuel c
    exact func_ASI_step_third_none fuel 0 1 (5 / 1000) c (by norm_num) (by norm_num)
      (by norm_num) (by norm_num)
  · intro d
    obtain ⟨h1, h2, h3⟩ := jumpInterval_spec d
    have hbudget : 15 * ((5 : ℚ) / 1000 / 2 ^ d)
        ≤ ((jumpInterval d).2 - (jumpInterval d).1) / 12 := by
      have hx : (0 : ℚ) < 1 / 2 ^ d := by positivity
      have e : (5 : ℚ) / 1000 / 2 ^ d = 5 / 1000 * (1 / 2 ^ d) := by ring
      rw [h3, e]
      linarith
    refine ⟨by linarith, by positivity, ?_⟩
    exact not_lt.mp (step_third_errest h1 h2 hbudget)

/-! ## The rounding grid of the `double` model -/

theorem lt_pow_twice {x j k : Nat} (h : x < 2 ^ j) (hj : j = k + k) : x < 2 ^ (k + k) :=
  hj ▸ h

theorem log2Step_inv (n k : Nat) (acc : Nat × Nat) (h1 : acc.1 = n / 2 ^ acc.2)
    (h2 : 0 < acc.1) (h3 : acc.1 < 2 ^ (k + k)) :
    (log2Step k acc).1 = n / 2 ^ (log2Step k acc).2 ∧ 0 < (log2Step k acc).1 ∧
      (log2Step k acc).1 < 2 ^ k := by
  unfold log2Step
  split
  · rename_i hk
    refine ⟨?_, Nat.div_pos hk (by positivity), Nat.div_lt_of_lt_mul ?_⟩
    · simp only [h1, Nat.div_div_eq_div_mul, pow_add]
    · rw [← pow_add]
      exact h3
  · rename_i hk
    exact ⟨h1, h2, not_le.mp hk⟩

/-- For `0 < n < 2 ^ 4096`, `ilog2 n` is the position of the leading bit of `n`. -/
theorem ilog2_spec (n : Nat) (h0 : 0 < n) (hn : n < 2 ^ (2048 + 2048)) :
    2 ^ ilog2 n ≤ n ∧ n < 2 ^ (ilog2 n + 1) := by
  have s0 : (n, 0).1 = n / 2 ^ (n, 0).2 ∧ 0 < (n, 0).1 ∧ (n, 0).1 < 2 ^ (2048 + 2048) :=
    ⟨by simp, h0, hn⟩
  have s1 := log2Step_inv n 2048 _ s0.1 s0.2.1 s0.2.2
  have s2 := log2Step_inv n 1024 _ s1.1 s1.2.1 (lt_pow_twice s1.2.2 rfl)
  have s3 := log2Step_inv n 512 _ s2.1 s2.2.1 (lt_pow_twice s2.2.2 rfl)
  have s4 := log2Step_inv n 256 _ s3.1 s3.2.1 (lt_pow_twice s3.2.2 rfl)
  have s5 := log2Step_inv n 128 _ s4.1 s4.2.1 (lt_pow_twice s4.2.2 rfl)
  have s6 := log2Step_inv n 64 _ s5.1 s5.2.1 (lt_pow_twice s5.2.2 rfl)
  have s7 := log2Step_inv n 32 _ s6.1 s6.2.1 (lt_pow_twice s6.2.2 rfl)
  have s8 := log2Step_inv n 16 _ s7.1 s7.2.1 (lt_pow_twice s7.2.2 rfl)
  have s9 := log2Step_inv n 8 _ s8.1 s8.2.1 (lt_pow_twice s8.2.2 rfl)
  have s10 := log2Step_inv n 4 _ s9.1 s9.2.1 (lt_pow_twice s9.2.2 rfl)
  have s11 := log2Step_inv n 2 _ s10.1 s10.2.1 (lt_pow_twice s10.2.2 rfl)
  have s12 := log2Step_inv n 1 _ s11.1 s11.2.1 (lt_pow_twice s11.2.2 rfl)
  obtain ⟨e1, e2, e3⟩ := s12
  have hone : n / 2 ^ ilog2 n = 1 := by
    unfold ilog2
    rw [← e1]
    omega
  have hpos : 0 < 2 ^ ilog2 n := by positivity
  have hdm := Nat.div_add_mod n (2 ^ ilog2 n)
  have hml := Nat.mod_lt n hpos
  rw [hone, mul_one] at hdm
  rw [pow_succ]
  omega

/-! ## The code over an arbitrary arithmetic -/

section ArithModel

variable {F : Type} (A : Arith F)

theorem func_ASI_arith_reject {fuel : Nat} {func_f : Option (F → F)} {a b tol : F} {c : Nat}
    (h : A.le tol (A.lit 0) = true ∨ func_f = none ∨ A.lt b a = true) :
    func_ASI_arith A fuel func_f a b tol c = some (A.lit (-1), c) := by
  unfold func_ASI_arith
  split
  · rfl
  · cases func_f with
    | none => rfl
    | some f =>
      rcases h with h | h | h
      · contradiction
      · cases h
      · simp [h]

theorem func_ASI_arith_accept {fuel : Nat} {f : F → F} {a b tol : F} {c : Nat}
    (htol : A.le tol (A.lit 0) = false) (hab : A.lt b a = false)
    (herr : A.lt (errest_arith A f a b) (A.mul (A.lit 15) tol) = true) :
    func_ASI_arith A fuel (some f) a b tol c = some (I2_arith A f a b, (c + 1) % 2 ^ 32) := by
  unfold func_ASI_arith
  simp only [errest_arith, I2_arith] at herr
  simp [htol, hab, herr, I2_arith]

theorem func_ASI_arith_split {fuel : Nat} {f : F → F} {a b tol : F} {c : Nat}
    (htol : A.le tol (A.lit 0) = false) (hab : A.lt b a = false)
    (herr : A.lt (errest_arith A f a b) (A.mul (A.lit 15) tol) = false) :
    func_ASI_arith A (fuel + 1) (some f) a b tol c =
      (func_ASI_arith A fuel (some f) a (A.div (A.add a b) (A.lit 2)) (A.div tol (A.lit 2))
        ((c + 1) % 2 ^ 32)).bind fun l =>
        (func_ASI_arith A fuel (some f) (A.div (A.add a b) (A.lit 2)) b
          (A.div tol (A.lit 2)) l.2).bind fun r => some (A.add l.1 r.1, r.2) := by
  rw [func_ASI_arith]
  simp only [errest_arith, I2_arith] at herr
  simp only [htol, hab, herr, Bool.false_eq_true, if_false]
  cases h1 : func_ASI_arith A fuel (some f) a (A.div (A.add a b) (A.lit 2))
      (A.div tol (A.lit 2)) ((c + 1) % 2 ^ 32) with
  | none => simp
  | some l =>
    obtain ⟨l1, l2⟩ := l
    cases h2 : func_ASI_arith A fuel (some f) (A.div (A.add a b) (A.lit 2)) b
        (A.div tol (A.lit 2)) l2 with
    | none => simp [h2]
    | some r => simp [h2]

theorem func_ASI_arith_stuck {f : F → F} {a b tol : F} {c : Nat}
    (htol : A.le tol (A.lit 0) = false) (hab : A.lt b a = false)
    (herr : A.lt (errest_arith A f a b) (A.mul (A.lit 15) tol) = false) :
    func_ASI_arith A 0 (some f) a b tol c = none := by
  rw [func_ASI_arith]
  simp only [errest_arith, I2_arith] at herr
  simp only [htol, hab, herr, Bool.false_eq_true, if_false]

end ArithModel

/-! ## The exact model is the arithmetic model at `exactArith` -/

section ExactInstance

theorem func_simpsons_rule_arith_exact (f : K → K) (a b : K) :
    func_simpsons_rule_arith (exactArith K) f a b = func_simpsons_rule f a b := by
  simp [func_simpsons_rule_arith, func_simpsons_rule, exactArith]

theorem I2_arith_exact (f : K → K) (a b : K) : I2_arith (exactArith K) f a b = I2 f a b := by
  simp only [I2_arith, I2, func_simpsons_rule_arith_exact]
  simp [exactArith]

theorem errest_arith_exact (f : K → K) (a b : K) :
    errest_arith (exactArith K) f a b = |I2 f a b - func_simpsons_rule f a b| := by
  simp only [errest_arith, I2_arith_exact, func_simpsons_rule_arith_exact]
  simp [exactArith]

theorem exactArith_mid (a b : K) :
    (exactArith K).div ((exactArith K).add a b) ((exactArith K).lit 2) = (a + b) / 2 := by
  simp [exactArith]

theorem exactArith_half (tol : K) : (exactArith K).div tol ((exactArith K).lit 2) = tol / 2 := by
  simp [exactArith]

theorem exactArith_tol (tol : K) :
    (exactArith K).le tol ((exactArith K).lit 0) = decide (tol ≤ 0) := by
  simp [exactArith]

theorem exactArith_lt (a b : K) (tol : K) (f : K → K) :
    (exactArith K).lt (errest_arith (exactArith K) f a b)
        ((exactArith K).mul ((exactArith K).lit 15) tol)
      = decide (|I2 f a b - func_simpsons_rule f a b| < 15 * tol) := by
  rw [errest_arith_exact]
  simp [exactArith]

theorem exactArith_sentinel : (exactArith K).lit (-1) = (-1 : K) := by
  simp [exactArith]

/-- The exact model `func_ASI` is `func_ASI_arith` at the exact arithmetic. -/
theorem func_ASI_arith_exact : ∀ (fuel : Nat) (func_f : Option (K → K)) (a b tol : K) (c : Nat),
    func_ASI_arith (exactArith K) fuel func_f a b tol c = func_ASI fuel func_f a b tol c := by
  have hrej : ∀ (fuel : Nat) (func_f : Option (K → K)) (a b tol : K) (c : Nat),
      (tol ≤ 0 ∨ func_f = none ∨ a > b) →
      func_ASI_arith (exactArith K) fuel func_f a b tol c = func_ASI fuel func_f a b tol c := by
    intro fuel func_f a b tol c h
    rw [func_ASI_invalid h, func_ASI_arith_reject, exactArith_sentinel]
    rcases h with h | h | h
    · exact Or.inl (by rw [exactArith_tol]; exact decide_eq_true h)
    · exact Or.inr (Or.inl h)
    · exact Or.inr (Or.inr (decide_eq_true h))
  intro fuel
  induction fuel with
  | zero =>
    intro func_f a b tol c
    by_cases htol : tol ≤ 0
    · exact hrej _ _ _ _ _ _ (Or.inl htol)
    cases func_f with
    | none => exact hrej _ _ _ _ _ _ (Or.inr (Or.inl rfl))
    | some f =>
      by_cases hab : a > b
      · exact hrej _ _ _ _ _ _ (Or.inr (Or.inr hab))
      have htol' : (exactArith K).le tol ((exactArith K).lit 0) = false := by
        rw [exactArith_tol]; exact decide_eq_false htol
      have hab' : (exactArith K).lt b a = false := decide_eq_false hab
      by_cases herr : |I2 f a b - func_simpsons_rule f a b| < 15 * tol
      · rw [func_ASI_accept (not_le.mp htol) (not_lt.mp hab) herr,
          func_ASI_arith_accept _ htol' hab' (by rw [exactArith_lt]; exact decide_eq_true herr),
          I2_arith_exact]
      · rw [func_ASI_stuck (not_le.mp htol) (not_lt.mp hab) herr,
          func_ASI_arith_stuck _ htol' hab' (by rw [exactArith_lt]; exact decide_eq_false herr)]
  | succ n ih =>
    intro func_f a b tol c
    by_cases htol : tol ≤ 0
    · exact hrej _ _ _ _ _ _ (Or.inl htol)
    cases func_f with
    | none => exact hrej _ _ _ _ _ _ (Or.inr (Or.inl rfl))
    | some f =>
      by_cases hab : a > b
      · exact hrej _ _ _ _ _ _ (Or.inr (Or.inr hab))
      have htol' : (exactArith K).le tol ((exactArith K).lit 0) = false := by
        rw [exactArith_tol]; exact decide_eq_false htol
      have hab' : (exactArith K).lt b a = false := decide_eq_false hab
      by_cases herr : |I2 f a b - func_simpsons_rule f a b| < 15 * tol
      · rw [func_ASI_accept (not_le.mp htol) (not_lt.mp hab) herr,
          func_ASI_arith_accept _ htol' hab' (by rw [exactArith_lt]; exact decide_eq_true herr),
          I2_arith_exact]
      · rw [func_ASI_split (not_le.mp htol) (not_lt.mp hab) herr,
          func_ASI_arith_split _ htol' hab' (by rw [exactArith_lt]; exact decide_eq_false herr),
          exactArith_mid, exactArith_half, ih]
        congr 1
        funext l
        rw [ih]
        rfl

end ExactInstance

/-! ## The call counter (C5) -/

end AdaptiveIntegration
